import Mathlib

/-!
# Verification of the VocalEdge AI voice-analysis core

A shallow embedding of the analysis pipeline of `src/main.py`
(`analyze_voice`): signal normalization, pitch-series smoothing and
statistics, energy statistics, pause detection, filler approximation,
confidence scoring, level mapping and suggestion generation.  Scalars are
modelled exactly: rationals for the arithmetic the program performs on
Python floats, reals where a square root enters (RMS and standard
deviation).  Library routines the program calls (librosa, scipy) are
embedded from their documented behaviour and from the specification, and
their doc comments say so.
-/

namespace VocalEdge

/-- `np.clip x 0 1` as `analyze_voice` uses it (src/main.py lines 60-63):
clamp a scalar into `[0, 1]`. -/
def clip01 {K : Type} [LinearOrderedField K] (x : K) : K :=
  min (max x 0) 1

/-- The scalar feature summary the pipeline hands to the scorer and the
suggestion rules (src/main.py lines 30-51 compute these). -/
structure FeatureSummary (K : Type) where
  pitchMean : K
  pitchStd : K
  energyMean : K
  energyStd : K
  pauseCount : ℕ
  totalSilence : K
  fillerCount : ℕ

/-- The confidence score of src/main.py lines 60-72: start at 100, subtract
the four normalized penalty terms, and clamp at 0 from below
(`confidence_score = max(confidence_score, 0)`). -/
def confidenceScore {K : Type} [LinearOrderedField K] (s : FeatureSummary K) : K :=
  max (100 - clip01 (s.pitchStd / 50) * 20
         - (1 - clip01 (s.energyMean * 50)) * 25
         - clip01 ((s.fillerCount : K) / 10) * 30
         - clip01 ((s.pauseCount : K) / 5) * 25)
      0

/-- The level mapping of src/main.py lines 75-80. -/
def confidenceLevel {K : Type} [LinearOrderedField K] (x : K) : String :=
  if 75 ≤ x then "Confident"
  else if 50 ≤ x then "Moderate"
  else "Needs Improvement"

/-- The suggestion list of src/main.py lines 83-91: four independent
threshold tests, each appending one fixed message, in the source's order. -/
def suggestions {K : Type} [LinearOrderedField K] (s : FeatureSummary K) : List String :=
  (if s.pitchStd < 20 then ["Increase pitch variation to sound more engaging."] else []) ++
  (if s.energyMean < 2 / 100 then ["Speak with more volume and energy."] else []) ++
  (if 3 ≤ s.fillerCount then ["Practice reducing filler words like 'um' and 'uh'."] else []) ++
  (if 3 ≤ s.pauseCount then ["Minimize long pauses for smoother delivery."] else [])

/-- The score exactly as the specification words it: one closed-form maximum
over the four summaries, to be compared with `confidenceScore`. -/
def scoreSpec {K : Type} [LinearOrderedField K]
    (pitchStd energyMean : K) (fillerCount pauseCount : ℕ) : K :=
  max 0 (100 - clip01 (pitchStd / 50) * 20
           - (1 - clip01 (energyMean * 50)) * 25
           - clip01 ((fillerCount : K) / 10) * 30
           - clip01 ((pauseCount : K) / 5) * 25)

/-- C1: the confidence score equals
`max(0, 100 - clip(pitch_std/50,0,1)*20 - (1 - clip(energy_mean*50,0,1))*25
- clip(filler_count/10,0,1)*30 - clip(pause_count/5,0,1)*25)`, a pure
function of the four summaries `pitch_std`, `energy_mean`, `filler_count`
and `pause_count`. -/
theorem C1_score_formula (s : FeatureSummary ℚ) :
    confidenceScore s = scoreSpec s.pitchStd s.energyMean s.fillerCount s.pauseCount := by
  unfold confidenceScore scoreSpec
  exact max_comm _ _

/-- C3: the confidence level is the step function of the score with
thresholds 75 and 50: `score ≥ 75` yields Confident, `50 ≤ score < 75`
yields Moderate, `score < 50` yields Needs Improvement; in particular the
boundary score 75 maps to Confident and 74.999 maps to Moderate. -/
theorem C3_level_step_function :
    (∀ x : ℚ, (75 ≤ x → confidenceLevel x = "Confident") ∧
      (50 ≤ x ∧ x < 75 → confidenceLevel x = "Moderate") ∧
      (x < 50 → confidenceLevel x = "Needs Improvement")) ∧
    confidenceLevel (75 : ℚ) = "Confident" ∧
    confidenceLevel (74999 / 1000 : ℚ) = "Moderate" := by
  refine ⟨fun x => ⟨fun h => ?_, fun h => ?_, fun h => ?_⟩,
    by norm_num [confidenceLevel], by norm_num [confidenceLevel]⟩
  · simp [confidenceLevel, h]
  · rw [confidenceLevel, if_neg (by linarith [h.2]), if_pos h.1]
  · rw [confidenceLevel, if_neg (by linarith), if_neg (by linarith)]

lemma clip01_nonneg {K : Type} [LinearOrderedField K] (x : K) : 0 ≤ clip01 x :=
  le_min (le_max_right x 0) zero_le_one

lemma clip01_le_one {K : Type} [LinearOrderedField K] (x : K) : clip01 x ≤ 1 :=
  min_le_right _ _

lemma clip01_mono {K : Type} [LinearOrderedField K] {x y : K} (h : x ≤ y) :
    clip01 x ≤ clip01 y :=
  min_le_min (max_le_max h le_rfl) le_rfl

lemma confidenceScore_le_of_summands {K : Type} [LinearOrderedField K]
    {a b c d a' b' c' d' : K} (ha : a' ≤ a) (hb : b ≤ b') (hc : c' ≤ c) (hd : d' ≤ d) :
    max (100 - a * 20 - (1 - b) * 25 - c * 30 - d * 25) 0 ≤
      max (100 - a' * 20 - (1 - b') * 25 - c' * 30 - d' * 25) 0 := by
  apply max_le_max _ le_rfl
  have h20 : a' * 20 ≤ a * 20 := by nlinarith
  have h25 : (1 - b') * 25 ≤ (1 - b) * 25 := by nlinarith
  have h30 : c' * 30 ≤ c * 30 := by nlinarith
  have h25' : d' * 25 ≤ d * 25 := by nlinarith
  linarith

/-- C2: the confidence score always lies in `[0, 100]`, and with the other
inputs held fixed it is monotonically non-increasing in `filler_count`,
`pause_count` and `pitch_std`, and monotonically non-decreasing in
`energy_mean`. -/
theorem C2_score_range_and_monotone :
    (∀ s : FeatureSummary ℚ, 0 ≤ confidenceScore s ∧ confidenceScore s ≤ 100) ∧
    (∀ (s : FeatureSummary ℚ) (n : ℕ), s.fillerCount ≤ n →
      confidenceScore { s with fillerCount := n } ≤ confidenceScore s) ∧
    (∀ (s : FeatureSummary ℚ) (n : ℕ), s.pauseCount ≤ n →
      confidenceScore { s with pauseCount := n } ≤ confidenceScore s) ∧
    (∀ (s : FeatureSummary ℚ) (x : ℚ), s.pitchStd ≤ x →
      confidenceScore { s with pitchStd := x } ≤ confidenceScore s) ∧
    (∀ (s : FeatureSummary ℚ) (x : ℚ), s.energyMean ≤ x →
      confidenceScore s ≤ confidenceScore { s with energyMean := x }) := by
  refine ⟨fun s => ⟨le_max_right _ _, ?_⟩, fun s n h => ?_, fun s n h => ?_,
    fun s x h => ?_, fun s x h => ?_⟩
  · apply max_le _ (by norm_num)
    have h1 := clip01_nonneg (K := ℚ) (s.pitchStd / 50)
    have h2 := clip01_le_one (K := ℚ) (s.energyMean * 50)
    have h3 := clip01_nonneg (K := ℚ) ((s.fillerCount : ℚ) / 10)
    have h4 := clip01_nonneg (K := ℚ) ((s.pauseCount : ℚ) / 5)
    nlinarith
  · exact confidenceScore_le_of_summands le_rfl le_rfl
      (clip01_mono (by have : (s.fillerCount : ℚ) ≤ n := Nat.cast_le.mpr h; linarith))
      le_rfl
  · exact confidenceScore_le_of_summands le_rfl le_rfl le_rfl
      (clip01_mono (by have : (s.pauseCount : ℚ) ≤ n := Nat.cast_le.mpr h; linarith))
  · exact confidenceScore_le_of_summands
      (clip01_mono (by linarith)) le_rfl le_rfl le_rfl
  · exact confidenceScore_le_of_summands le_rfl
      (clip01_mono (by nlinarith)) le_rfl le_rfl

/-- The suggestion policy exactly as the specification words it: an ordered
table of independent threshold rules, kept when the test holds, to be
compared with `suggestions`. -/
def suggestionRules : List ((FeatureSummary ℚ → Bool) × String) :=
  [(fun s => decide (s.pitchStd < 20), "Increase pitch variation to sound more engaging."),
   (fun s => decide (s.energyMean < 2 / 100), "Speak with more volume and energy."),
   (fun s => decide (3 ≤ s.fillerCount), "Practice reducing filler words like 'um' and 'uh'."),
   (fun s => decide (3 ≤ s.pauseCount), "Minimize long pauses for smoother delivery.")]

def suggestionsSpec (s : FeatureSummary ℚ) : List String :=
  ((suggestionRules.filter (fun r => r.1 s)).map Prod.snd)

/-- C7: the suggestion list contains exactly the messages of the rules whose
threshold test holds, in the fixed order pitch, energy, filler, pause; the
four tests are independent (every one of the sixteen outcome combinations is
realized by some summary), and when no test holds the list is empty. -/
theorem C7_suggestions :
    (∀ s : FeatureSummary ℚ, suggestions s = suggestionsSpec s) ∧
    (∀ b1 b2 b3 b4 : Bool, ∃ s : FeatureSummary ℚ,
      decide (s.pitchStd < 20) = b1 ∧ decide (s.energyMean < 2 / 100) = b2 ∧
      decide (3 ≤ s.fillerCount) = b3 ∧ decide (3 ≤ s.pauseCount) = b4) ∧
    (∀ s : FeatureSummary ℚ,
      (¬ s.pitchStd < 20 ∧ ¬ s.energyMean < 2 / 100 ∧
        ¬ 3 ≤ s.fillerCount ∧ ¬ 3 ≤ s.pauseCount) → suggestions s = []) := by
  refine ⟨fun s => ?_, fun b1 b2 b3 b4 => ?_, fun s h => ?_⟩
  · by_cases h1 : s.pitchStd < 20 <;> by_cases h2 : s.energyMean < 2 / 100 <;>
      by_cases h3 : 3 ≤ s.fillerCount <;> by_cases h4 : 3 ≤ s.pauseCount <;>
      simp [suggestions, suggestionsSpec, suggestionRules, h1, h2, h3, h4]
  · refine ⟨⟨0, if b1 then 0 else 20, if b2 then 0 else 1, 0,
      if b4 then 3 else 0, 0, if b3 then 3 else 0⟩, ?_, ?_, ?_, ?_⟩ <;>
      cases b1 <;> cases b2 <;> cases b3 <;> cases b4 <;> norm_num
  · obtain ⟨h1, h2, h3, h4⟩ := h
    simp [suggestions, h1, h2, h3, h4]

/-- `np.max (np.abs y)` over the sample list (src/main.py line 17); an empty
list yields 0 (the program's buffers are non-empty). -/
def peakAmp (y : List ℚ) : ℚ :=
  y.foldr (fun a m => max |a| m) 0

/-- The signal normalizer of src/main.py line 17:
`y = y / (np.max(np.abs(y)) + 1e-5)`, applied sample-wise. -/
def normalizeSignal (y : List ℚ) : List ℚ :=
  y.map (fun a => a / (peakAmp y + 1 / 100000))

lemma peakAmp_nonneg (y : List ℚ) : 0 ≤ peakAmp y := by
  induction y with
  | nil => exact le_rfl
  | cons a t ih => exact le_trans ih (le_max_right _ _)

lemma abs_le_peakAmp {y : List ℚ} {a : ℚ} (h : a ∈ y) : |a| ≤ peakAmp y := by
  induction y with
  | nil => cases h
  | cons b t ih =>
    rcases List.mem_cons.mp h with rfl | h
    · exact le_max_left _ _
    · exact le_trans (ih h) (le_max_right _ _)

lemma peakAmp_le {y : List ℚ} {c : ℚ} (h0 : 0 ≤ c) (h : ∀ a ∈ y, |a| ≤ c) :
    peakAmp y ≤ c := by
  induction y with
  | nil => exact h0
  | cons b t ih =>
    exact max_le (h b (List.mem_cons_self b t)) (ih fun a ha => h a (List.mem_cons_of_mem b ha))

/-- C4: for every input buffer, the normalized output (each sample divided by
the peak absolute amplitude plus the epsilon `1e-5`) has peak absolute
amplitude at most 1; the output is all-zero exactly when the input is
all-zero; and the divisor is strictly positive on every input, silence
included, so no division by zero occurs. -/
theorem C4_normalizer (y : List ℚ) :
    peakAmp (normalizeSignal y) ≤ 1 ∧
    ((∀ a ∈ normalizeSignal y, a = 0) ↔ ∀ a ∈ y, a = 0) ∧
    0 < peakAmp y + 1 / 100000 := by
  have hd : 0 < peakAmp y + 1 / 100000 := by
    have := peakAmp_nonneg y
    linarith
  refine ⟨?_, ⟨fun h a ha => ?_, fun h a ha => ?_⟩, hd⟩
  · apply peakAmp_le zero_le_one
    intro a ha
    obtain ⟨b, hb, rfl⟩ := List.mem_map.mp ha
    rw [abs_div, abs_of_pos hd]
    rw [div_le_one hd]
    exact le_trans (abs_le_peakAmp hb) (by linarith)
  · have hmem : a / (peakAmp y + 1 / 100000) ∈ normalizeSignal y :=
      List.mem_map.mpr ⟨a, ha, rfl⟩
    have := h _ hmem
    rcases div_eq_zero_iff.mp this with h0 | h0
    · exact h0
    · exact absurd h0 (ne_of_gt hd)
  · obtain ⟨b, hb, rfl⟩ := List.mem_map.mp ha
    rw [h b hb, zero_div]

/-- The pause-detection loop of src/main.py lines 40-46: walk the ordered
voiced spans, and for each temporally adjacent pair count a pause and add
the gap when `(start of next - end of previous) / rate` exceeds 0.25. -/
def pauseStats (rate : ℚ) : List (ℕ × ℕ) → ℕ × ℚ
  | [] => (0, 0)
  | [_] => (0, 0)
  | a :: b :: rest =>
    let g : ℚ := ((b.1 : ℚ) - (a.2 : ℚ)) / rate
    let p := pauseStats rate (b :: rest)
    if 1 / 4 < g then (p.1 + 1, p.2 + g) else p

/-- The gap durations between temporally adjacent spans, in the spec's
wording: start of next span minus end of previous span, divided by the
sample rate. -/
def adjacentGaps (rate : ℚ) (spans : List (ℕ × ℕ)) : List ℚ :=
  (spans.zip spans.tail).map (fun p => ((p.2.1 : ℚ) - (p.1.2 : ℚ)) / rate)

/-- C5: a gap between two temporally adjacent voiced spans is counted as a
pause, and its duration added to the total silence, exactly when it strictly
exceeds 0.25 s: the pause count is the number of qualifying adjacent gaps
and the total silence is their sum; with zero or one span the result is
`(0, 0)`. -/
theorem C5_pause_gaps (rate : ℚ) (spans : List (ℕ × ℕ)) :
    pauseStats rate spans =
      (((adjacentGaps rate spans).filter (fun g => decide (1 / 4 < g))).length,
        ((adjacentGaps rate spans).filter (fun g => decide (1 / 4 < g))).sum) ∧
    (spans.length ≤ 1 → pauseStats rate spans = (0, 0)) := by
  constructor
  · induction spans with
    | nil => rfl
    | cons a t ih =>
      cases t with
      | nil => rfl
      | cons b rest =>
        rw [pauseStats]
        rw [show adjacentGaps rate (a :: b :: rest) =
          ((b.1 : ℚ) - (a.2 : ℚ)) / rate :: adjacentGaps rate (b :: rest) from rfl]
        rw [List.filter_cons]
        by_cases hg : 1 / 4 < ((b.1 : ℚ) - (a.2 : ℚ)) / rate
        · rw [if_pos hg, decide_eq_true hg, if_pos rfl, ih]
          simp [add_comm]
        · rw [if_neg hg, decide_eq_false hg, if_neg Bool.false_ne_true, ih]
  · intro h
    cases spans with
    | nil => rfl
    | cons a t =>
      cases t with
      | nil => rfl
      | cons b rest => exact absurd h (by simp)

/-- C10: after the pause loop, the total silence duration is 0 whenever the
pause count is 0, and strictly exceeds 0.25 times the pause count whenever
the pause count is positive, over every span list and rate. -/
theorem C10_silence_vs_count (rate : ℚ) (spans : List (ℕ × ℕ)) :
    ((pauseStats rate spans).1 = 0 → (pauseStats rate spans).2 = 0) ∧
    (0 < (pauseStats rate spans).1 →
      (1 / 4 : ℚ) * ((pauseStats rate spans).1 : ℚ) < (pauseStats rate spans).2) := by
  induction spans with
  | nil => exact ⟨fun _ => rfl, fun h => absurd h (by simp [pauseStats])⟩
  | cons a t ih =>
    cases t with
    | nil => exact ⟨fun _ => rfl, fun h => absurd h (by simp [pauseStats])⟩
    | cons b rest =>
      rw [pauseStats]
      by_cases hg : 1 / 4 < ((b.1 : ℚ) - (a.2 : ℚ)) / rate
      · rw [if_pos hg]
        refine ⟨fun h => absurd h (by simp), fun _ => ?_⟩
        rcases Nat.eq_zero_or_pos (pauseStats rate (b :: rest)).1 with h0 | h0
        · have := ih.1 h0
          push_cast [h0]
          rw [this]
          linarith
        · have := ih.2 h0
          push_cast
          linarith
      · rw [if_neg hg]
        exact ih

/-- Sorting a list of rationals ascending, as numpy does internally before
taking a median. -/
def sortedQ (l : List ℚ) : List ℚ :=
  l.insertionSort (· ≤ ·)

/-- The numpy median of a list: middle element of the sorted list for odd
length, mean of the two middle elements for even length. -/
def medianNp (l : List ℚ) : ℚ :=
  if l.length % 2 = 1 then (sortedQ l).getD (l.length / 2) 0
  else ((sortedQ l).getD (l.length / 2 - 1) 0 + (sortedQ l).getD (l.length / 2) 0) / 2

/-- Boundary index folding of scipy's default `reflect` mode
(`(d c b a | a b c d | d c b a)`): a window position outside `[0, n)` is
folded back into range by mirroring at the array ends. -/
def reflectIdx (n : ℕ) (j : ℤ) : ℕ :=
  if j < 0 then (-j - 1).toNat else if (n : ℤ) ≤ j then (2 * n - 1 - j).toNat else j.toNat

/-- `scipy.ndimage.median_filter(xs, size=5)` as src/main.py line 29 calls
it: for every index, the median of the size-5 centred window, out-of-range
positions folded back by the default `reflect` boundary mode.  Modelled from
the documented scipy semantics (the scipy code is not part of this
repository). -/
def medianFilter5 (xs : List ℚ) : List ℚ :=
  (List.range xs.length).map (fun (i : ℕ) =>
    medianNp ((List.range 5).map (fun (k : ℕ) =>
      xs.getD (reflectIdx xs.length ((i : ℤ) + (k : ℤ) - 2)) 0)))

/-- The smoothing step of src/main.py lines 28-29: the median filter is
applied only when the pitch series has more than 5 entries. -/
def pitchSmooth (xs : List ℚ) : List ℚ :=
  if 5 < xs.length then medianFilter5 xs else xs

/-- Modelled from the spec: a sliding window-5 median in which an edge frame
uses only the available sub-window of the series, with no padding beyond the
series boundaries. -/
def medianFilterSubwindow (xs : List ℚ) : List ℚ :=
  (List.range xs.length).map (fun (i : ℕ) =>
    medianNp ((xs.drop (i - 2)).take (min (i + 3) xs.length - (i - 2))))

/-- The smoothing step as the claim describes it: sub-window medians at the
edges, applied only beyond 5 entries. -/
def pitchSmoothSub (xs : List ℚ) : List ℚ :=
  if 5 < xs.length then medianFilterSubwindow xs else xs

/-- The series extended by two reflected samples on each side, scipy's
`reflect` boundary mode written as explicit padding. -/
def reflectPad (xs : List ℚ) : List ℚ :=
  (xs.take 2).reverse ++ xs ++ xs.reverse.take 2

/-- The window-5 sliding median over the reflect-padded series: the padded
formulation of the same filter, to be compared with `medianFilter5`. -/
def medianFilterPad (xs : List ℚ) : List ℚ :=
  (List.range xs.length).map (fun i => medianNp (((reflectPad xs).drop i).take 5))

lemma exists_decomp (xs : List ℚ) (h : 4 ≤ xs.length) :
    ∃ a b m c d, xs = a :: b :: (m ++ [c, d]) := by
  obtain ⟨a, t, rfl⟩ := List.exists_cons_of_ne_nil
    (l := xs) (by intro h0; rw [h0] at h; simp at h)
  obtain ⟨b, t2, rfl⟩ := List.exists_cons_of_ne_nil
    (l := t) (by intro h0; rw [h0] at h; simp at h)
  rcases List.eq_nil_or_concat t2 with rfl | ⟨r1, d, rfl⟩
  · simp at h
  rcases List.eq_nil_or_concat r1 with rfl | ⟨m, c, rfl⟩
  · simp at h
  exact ⟨a, b, m, c, d, by simp⟩

lemma reflectPad_length (xs : List ℚ) (h : 2 ≤ xs.length) :
    (reflectPad xs).length = xs.length + 4 := by
  simp [reflectPad]
  omega

lemma take5_drop (l : List ℚ) (i : ℕ) (h : i + 5 ≤ l.length) :
    (l.drop i).take 5 =
      [l.getD i 0, l.getD (i+1) 0, l.getD (i+2) 0, l.getD (i+3) 0, l.getD (i+4) 0] := by
  apply List.ext_getElem
  · simp
    omega
  · intro m h1 h2
    simp only [List.getElem_take, List.getElem_drop]
    have hm : m < 5 := by simp at h1; omega
    interval_cases m <;>
      simp [List.getD_eq_getElem, (by omega : i < l.length), (by omega : i + 1 < l.length),
        (by omega : i + 2 < l.length), (by omega : i + 3 < l.length),
        (by omega : i + 4 < l.length)]

lemma reflectPad_getD (xs : List ℚ) (h4 : 4 ≤ xs.length) (j : ℕ)
    (hj : j < xs.length + 4) :
    (reflectPad xs).getD j 0 = xs.getD (reflectIdx xs.length ((j : ℤ) - 2)) 0 := by
  obtain ⟨a, b, m, c, d, rfl⟩ := exists_decomp xs h4
  have hL3 : (a :: b :: (m ++ [c, d])).reverse.take 2 = [d, c] := by
    simp [List.reverse_cons, List.reverse_append, List.append_assoc]
  have hpad : reflectPad (a :: b :: (m ++ [c, d])) =
      [b, a] ++ ((a :: b :: (m ++ [c, d])) ++ [d, c]) := by
    rw [reflectPad, hL3, List.append_assoc]
    rfl
  have hn : (a :: b :: (m ++ [c, d])).length = m.length + 4 := by simp
  have e1 : ([b, a] : List ℚ).length = 2 := rfl
  rw [hn] at hj
  rw [hpad, hn]
  rcases Nat.lt_or_ge j 2 with hj2 | hj2
  · interval_cases j
    · norm_num [reflectIdx, List.getD]
    · norm_num [reflectIdx, List.getD]
  · rw [List.getD_append_right _ _ _ _ (by rw [e1]; omega), e1]
    rcases Nat.lt_or_ge j (m.length + 6) with hjm | hjm
    · rw [List.getD_append _ _ _ _ (by rw [hn]; omega)]
      rw [reflectIdx, if_neg (by omega), if_neg (by push_cast; omega)]
      congr 1
      omega
    · have hj' : j = m.length + 6 ∨ j = m.length + 7 := by omega
      rcases hj' with rfl | rfl
      · rw [List.getD_append_right _ _ _ _ (by rw [hn]; omega), hn]
        rw [show m.length + 6 - 2 - (m.length + 4) = 0 from by omega]
        rw [reflectIdx, if_neg (by push_cast; omega), if_pos (by push_cast; omega)]
        rw [show (2 * ((m.length + 4 : ℕ) : ℤ) - 1 - (((m.length + 6 : ℕ) : ℤ) - 2)).toNat
          = m.length + 2 + 1 from by push_cast; omega]
        rw [List.getD_cons_succ, show m.length + 2 = m.length + 1 + 1 from rfl,
          List.getD_cons_succ]
        rw [List.getD_append_right _ _ _ _ (by omega)]
        rw [show m.length + 1 - m.length = 1 from by omega]
        rfl
      · rw [List.getD_append_right _ _ _ _ (by rw [hn]; omega), hn]
        rw [show m.length + 7 - 2 - (m.length + 4) = 1 from by omega]
        rw [reflectIdx, if_neg (by push_cast; omega), if_pos (by push_cast; omega)]
        rw [show (2 * ((m.length + 4 : ℕ) : ℤ) - 1 - (((m.length + 7 : ℕ) : ℤ) - 2)).toNat
          = m.length + 1 + 1 from by push_cast; omega]
        rw [show ([d, c] : List ℚ).getD 1 0 = c from rfl]
        rw [List.getD_cons_succ, List.getD_cons_succ]
        rw [List.getD_append_right _ _ _ _ (by omega)]
        rw [show m.length - m.length = 0 from by omega]
        rfl

lemma medianFilter5_eq_pad (xs : List ℚ) (h : 5 < xs.length) :
    medianFilter5 xs = medianFilterPad xs := by
  unfold medianFilter5 medianFilterPad
  apply List.map_congr_left
  intro i hi
  rw [List.mem_range] at hi
  congr 1
  rw [take5_drop _ _ (by rw [reflectPad_length _ (by omega)]; omega)]
  rw [reflectPad_getD xs (by omega) i (by omega),
    reflectPad_getD xs (by omega) (i + 1) (by omega),
    reflectPad_getD xs (by omega) (i + 2) (by omega),
    reflectPad_getD xs (by omega) (i + 3) (by omega),
    reflectPad_getD xs (by omega) (i + 4) (by omega)]
  show [_, _, _, _, _] = _
  push_cast
  norm_num

/-- C8 counterexample: on the concrete pitch series `[0, 10, 0, 10, 0, 0]`
(more than 5 entries) the smoothing the code applies differs from the
claimed sub-window filter: scipy's reflect mode yields 0 at index 1 where
the sub-window median yields 5. -/
theorem C8_counterexample :
    pitchSmooth [0, 10, 0, 10, 0, 0] ≠ pitchSmoothSub [0, 10, 0, 10, 0, 0] := by
  have hA : pitchSmooth [0, 10, 0, 10, 0, 0] = [0, 0, 0, 0, 0, 0] := rfl
  have hB : pitchSmoothSub [0, 10, 0, 10, 0, 0] =
      [0, (0 + 10) / 2, 0, 0, (0 + 0) / 2, 0] := rfl
  rw [hA, hB]
  norm_num

/-- C8 (amended): when the pitch series has more than 5 entries, the applied
smoothing is the sliding window-5 median over the series extended by
reflection at its boundaries (scipy's default `reflect` mode), not over
truncated sub-windows; with 5 or fewer entries the series is left
unfiltered. -/
theorem C8_median_filter_reflect :
    (∀ xs : List ℚ, xs.length ≤ 5 → pitchSmooth xs = xs) ∧
    (∀ xs : List ℚ, 5 < xs.length → pitchSmooth xs = medianFilterPad xs) := by
  constructor
  · intro xs h
    rw [pitchSmooth, if_neg (by omega)]
  · intro xs h
    rw [pitchSmooth, if_pos h]
    exact medianFilter5_eq_pad xs h

/-- Fixed-size, fixed-hop analysis frames over a buffer; a buffer shorter
than one frame yields no frames (spec section 4.2 edge case). -/
def frameSlices (frameLen hop : ℕ) (y : List ℚ) : List (List ℚ) :=
  if y.length < frameLen then []
  else (List.range ((y.length - frameLen) / hop + 1)).map
    (fun t => (y.drop (hop * t)).take frameLen)

/-- Modelled from the spec: the per-frame dominant-periodicity estimate of
the pitch tracker (`librosa.piptrack`, src/main.py lines 20-26, whose code
is not part of this repository).  The spec determines the silent case: a
frame with no energy yields no confident periodicity, recorded as 0 and
removed by the strictly-greater-than-50 Hz gate (spec sections 4.2 and 7).
For a frame with energy the spec fixes only that the estimate is the
in-band frequency of highest spectral magnitude; the embedding uses the
band midpoint as a placeholder there, which no claim exercises. -/
def dominantPitch (frame : List ℚ) : ℚ :=
  if (frame.map (fun a => a ^ 2)).sum = 0 then 0 else 340

/-- The confident pitch series of src/main.py lines 21-26: per-frame
estimates kept only when strictly above 50. -/
def pitchValues (y : List ℚ) : List ℚ :=
  ((frameSlices 2048 512 y).map dominantPitch).filter (fun p => decide (50 < p))

/-- `np.mean` of a rational list (empty lists never reach it in the
program; the embedding returns 0 there via `0 / 0 = 0`). -/
def npMean (l : List ℚ) : ℚ :=
  l.sum / l.length

/-- The mean squared deviation from the mean, the radicand of `np.std`. -/
def npVarianceQ (l : List ℚ) : ℚ :=
  (l.map (fun a => (a - npMean l) ^ 2)).sum / l.length

/-- `np.std` of a rational list, as a real number. -/
noncomputable def npStd (l : List ℚ) : ℝ :=
  Real.sqrt (npVarianceQ l)

/-- Modelled from the spec: the frame series of `librosa.feature.rms`
(src/main.py line 34, library code not in this repository): fixed-size,
fixed-hop frames spanning the whole buffer, realised by centred
zero-padding of half a frame on each side. -/
def rmsFrames (y : List ℚ) : List (List ℚ) :=
  frameSlices 2048 512 (List.replicate 1024 0 ++ y ++ List.replicate 1024 0)

/-- The RMS magnitude series: per frame, the square root of the mean
squared sample. -/
noncomputable def energyValues (y : List ℚ) : List ℝ :=
  (rmsFrames y).map (fun f => Real.sqrt ((npMean (f.map (fun a => a ^ 2)) : ℚ) : ℝ))

/-- `np.mean` of a real list. -/
noncomputable def npMeanR (l : List ℝ) : ℝ :=
  l.sum / l.length

/-- `np.std` of a real list. -/
noncomputable def npStdR (l : List ℝ) : ℝ :=
  Real.sqrt ((l.map (fun a => (a - npMeanR l) ^ 2)).sum / l.length)

/-- Modelled from the spec: the voiced/silent classification of
`librosa.effects.split(y, top_db=30)` (src/main.py line 39, library code
not in this repository): a sample is voiced exactly when its power exceeds
the peak power times the -30 dB ratio, which is exactly 1/1000, written
multiplicatively to stay in the rationals. -/
def voicedMask (y : List ℚ) : List Bool :=
  y.map (fun a => decide ((peakAmp y) ^ 2 < 1000 * a ^ 2))

/-- Maximal runs of `true` in a mask, reported as half-open
`(start, end)` sample intervals. -/
def spansAux : List Bool → ℕ → Option ℕ → List (ℕ × ℕ)
  | [], _, none => []
  | [], i, some s => [(s, i)]
  | b :: rest, i, none =>
    if b then spansAux rest (i + 1) (some i) else spansAux rest (i + 1) none
  | b :: rest, i, some s =>
    if b then spansAux rest (i + 1) (some s) else (s, i) :: spansAux rest (i + 1) none

/-- The ordered voiced spans of the buffer. -/
def voicedSpans (y : List ℚ) : List (ℕ × ℕ) :=
  spansAux (voicedMask y) 0 none

/-- `np.convolve(|y|, ones(w)/w, mode=valid)` for a buffer at least as long
as the window: the moving average over every in-range window. -/
def movingAvg (w : ℕ) (y : List ℚ) : List ℚ :=
  (frameSlices w 1 y).map (fun f => f.sum / (w : ℚ))

/-- The smoothed envelope of src/main.py line 49: moving average of the
absolute samples with window 1000. -/
def envelope (y : List ℚ) : List ℚ :=
  movingAvg 1000 (y.map (fun a => |a|))

/-- Modelled from the spec: the local maxima of
`scipy.signal.find_peaks` (src/main.py line 50, library code not in this
repository): interior indices strictly greater than both neighbours. -/
def localMaxima (l : List ℚ) : List ℕ :=
  (List.range l.length).filter (fun i => decide (0 < i ∧ i + 1 < l.length ∧
    l.getD (i - 1) 0 < l.getD i 0 ∧ l.getD (i + 1) 0 < l.getD i 0))

/-- The peaks meeting the height threshold 0.01. -/
def peaksAbove (l : List ℚ) : List ℕ :=
  (localMaxima l).filter (fun i => decide (1 / 100 ≤ l.getD i 0))

/-- Modelled from the spec: the minimum mutual spacing of qualifying peaks
(1000 samples), enforced left to right. -/
def spaceFilter (dmin : ℕ) : Option ℕ → List ℕ → List ℕ
  | _, [] => []
  | none, i :: rest => i :: spaceFilter dmin (some i) rest
  | some lastKept, i :: rest =>
    if lastKept + dmin ≤ i then i :: spaceFilter dmin (some i) rest
    else spaceFilter dmin (some lastKept) rest

/-- The qualifying envelope peaks of src/main.py line 50. -/
def fillerPeaks (y : List ℚ) : List ℕ :=
  spaceFilter 1000 none (peaksAbove (envelope y))

/-- The filler count of src/main.py line 51: qualifying peaks
integer-divided by 30. -/
def fillerCountOf (y : List ℚ) : ℕ :=
  (fillerPeaks y).length / 30

/-- The feature summary `analyze_voice` computes over an already-normalized
buffer (src/main.py lines 20-51), with the source's empty-series guards for
the pitch statistics. -/
noncomputable def analyzeSummary (y : List ℚ) (rate : ℕ) : FeatureSummary ℝ where
  pitchMean :=
    if 0 < (pitchSmooth (pitchValues y)).length
    then ((npMean (pitchSmooth (pitchValues y)) : ℚ) : ℝ) else 0
  pitchStd :=
    if 0 < (pitchSmooth (pitchValues y)).length
    then npStd (pitchSmooth (pitchValues y)) else 0
  energyMean := npMeanR (energyValues y)
  energyStd := npStdR (energyValues y)
  pauseCount := (pauseStats (rate : ℚ) (voicedSpans y)).1
  totalSilence := (((pauseStats (rate : ℚ) (voicedSpans y)).2 : ℚ) : ℝ)
  fillerCount := fillerCountOf y

/-- The whole of `analyze_voice` (src/main.py lines 16-94): normalize, build
the feature summary, then score, level and suggestions. -/
noncomputable def analyzeVoice (y : List ℚ) (rate : ℕ) :
    String × ℝ × List String × FeatureSummary ℝ :=
  let s := analyzeSummary (normalizeSignal y) rate
  (confidenceLevel (confidenceScore s), confidenceScore s, suggestions s, s)

/-- C9: the filler count is the number of qualifying envelope peaks
integer-divided by 30; hence a run with fewer than 30 peaks reports filler
count 0, and the filler suggestion threshold `filler_count >= 3` can hold
only when at least 90 peaks were detected. -/
theorem C9_filler_floor (y : List ℚ) :
    fillerCountOf y = (fillerPeaks y).length / 30 ∧
    ((fillerPeaks y).length < 30 → fillerCountOf y = 0) ∧
    (3 ≤ fillerCountOf y ↔ 90 ≤ (fillerPeaks y).length) := by
  refine ⟨rfl, fun h => ?_, ?_⟩
  · rw [fillerCountOf]
    omega
  · rw [fillerCountOf]
    omega

lemma allZero_normalize {y : List ℚ} (h : ∀ a ∈ y, a = 0) :
    ∀ a ∈ normalizeSignal y, a = 0 := by
  intro a ha
  obtain ⟨b, hb, rfl⟩ := List.mem_map.mp ha
  rw [h b hb, zero_div]

lemma mem_of_mem_frameSlices {w q : ℕ} {y f : List ℚ} (hf : f ∈ frameSlices w q y) :
    ∀ a ∈ f, a ∈ y := by
  intro a ha
  rw [frameSlices] at hf
  split at hf
  · cases hf
  · obtain ⟨t, _, rfl⟩ := List.mem_map.mp hf
    exact List.mem_of_mem_drop (List.mem_of_mem_take ha)

lemma pitchValues_allZero {y : List ℚ} (h : ∀ a ∈ y, a = 0) :
    pitchValues y = [] := by
  rw [pitchValues, List.filter_eq_nil_iff]
  intro p hp
  obtain ⟨f, hf, rfl⟩ := List.mem_map.mp hp
  have hd : dominantPitch f = 0 := by
    rw [dominantPitch, if_pos]
    apply List.sum_eq_zero
    intro x hx
    obtain ⟨a, ha, rfl⟩ := List.mem_map.mp hx
    rw [h a (mem_of_mem_frameSlices hf a ha)]
    norm_num
  rw [hd]
  norm_num

lemma peakAmp_allZero {y : List ℚ} (h : ∀ a ∈ y, a = 0) : peakAmp y = 0 :=
  le_antisymm (peakAmp_le le_rfl (fun a ha => by rw [h a ha]; norm_num))
    (peakAmp_nonneg y)

lemma spansAux_allFalse (m : List Bool) (hb : ∀ b ∈ m, b = false) :
    ∀ i, spansAux m i none = [] := by
  induction m with
  | nil => intro i; rfl
  | cons b rest ih =>
    intro i
    rw [spansAux, hb b (List.mem_cons_self _ _)]
    simp only [Bool.false_eq_true, if_false]
    exact ih (fun c hc => hb c (List.mem_cons_of_mem b hc)) (i + 1)

lemma voicedSpans_allZero {y : List ℚ} (h : ∀ a ∈ y, a = 0) :
    voicedSpans y = [] := by
  apply spansAux_allFalse
  intro b hb
  obtain ⟨a, ha, rfl⟩ := List.mem_map.mp hb
  rw [h a ha, peakAmp_allZero h]
  norm_num

lemma getD_allZero {l : List ℚ} (h : ∀ a ∈ l, a = 0) (i : ℕ) : l.getD i 0 = 0 := by
  rcases Nat.lt_or_ge i l.length with hi | hi
  · rw [List.getD_eq_getElem _ _ hi]
    exact h _ (List.getElem_mem hi)
  · exact List.getD_eq_default _ _ hi

lemma envelope_allZero {y : List ℚ} (h : ∀ a ∈ y, a = 0) :
    ∀ e ∈ envelope y, e = 0 := by
  intro e he
  rw [envelope, movingAvg] at he
  obtain ⟨f, hf, rfl⟩ := List.mem_map.mp he
  have hs : f.sum = 0 := by
    apply List.sum_eq_zero
    intro x hx
    have hx' := mem_of_mem_frameSlices hf x hx
    obtain ⟨a, ha, rfl⟩ := List.mem_map.mp hx'
    rw [h a ha]
    norm_num
  rw [hs, zero_div]

lemma fillerCount_allZero {y : List ℚ} (h : ∀ a ∈ y, a = 0) :
    fillerCountOf y = 0 := by
  have hl : localMaxima (envelope y) = [] := by
    rw [localMaxima, List.filter_eq_nil_iff]
    intro i _
    simp only [decide_eq_true_eq, not_and]
    intro _ _ h3
    rw [getD_allZero (envelope_allZero h) (i - 1),
      getD_allZero (envelope_allZero h) i] at h3
    exact absurd h3 (lt_irrefl 0)
  rw [fillerCountOf, fillerPeaks, peaksAbove, hl]
  simp [spaceFilter]

lemma energyValues_allZero {y : List ℚ} (h : ∀ a ∈ y, a = 0) :
    ∀ e ∈ energyValues y, e = 0 := by
  intro e he
  rw [energyValues] at he
  obtain ⟨f, hf, rfl⟩ := List.mem_map.mp he
  have hf0 : ∀ a ∈ f, a = 0 := by
    intro a ha
    have hmem := mem_of_mem_frameSlices (w := 2048) (q := 512) hf a ha
    rcases List.mem_append.mp hmem with hm | hm
    · rcases List.mem_append.mp hm with hm' | hm'
      · exact (List.eq_of_mem_replicate hm')
      · exact h a hm'
    · exact List.eq_of_mem_replicate hm
  have hmean : npMean (f.map (fun a => a ^ 2)) = 0 := by
    rw [npMean]
    rw [List.sum_eq_zero]
    · exact zero_div _
    · intro x hx
      obtain ⟨a, ha, rfl⟩ := List.mem_map.mp hx
      rw [hf0 a ha]
      norm_num
  rw [hmean]
  norm_num

lemma npMeanR_allZero {l : List ℝ} (h : ∀ e ∈ l, e = 0) : npMeanR l = 0 := by
  rw [npMeanR, List.sum_eq_zero h, zero_div]

lemma npStdR_allZero {l : List ℝ} (h : ∀ e ∈ l, e = 0) : npStdR l = 0 := by
  rw [npStdR]
  have hs : (l.map (fun a => (a - npMeanR l) ^ 2)).sum = 0 := by
    apply List.sum_eq_zero
    intro x hx
    obtain ⟨a, ha, rfl⟩ := List.mem_map.mp hx
    rw [h a ha, npMeanR_allZero h]
    norm_num
  rw [hs, zero_div, Real.sqrt_zero]

/-- C6: on an all-zero buffer of any length at rate 22050, the pipeline
yields pitch mean 0, pitch standard deviation 0, energy mean 0, energy
standard deviation 0, pause count 0, total silence 0, filler count 0,
confidence score exactly 75, and level Confident (with the two low-pitch
and low-energy suggestions the source then emits). -/
theorem C6_silent_buffer (y : List ℚ) (h : ∀ a ∈ y, a = 0) :
    analyzeVoice y 22050 =
      ("Confident", (75 : ℝ),
        ["Increase pitch variation to sound more engaging.",
         "Speak with more volume and energy."],
        ⟨0, 0, 0, 0, 0, 0, 0⟩) := by
  have h' : ∀ a ∈ normalizeSignal y, a = 0 := allZero_normalize h
  have hpv : pitchValues (normalizeSignal y) = [] := pitchValues_allZero h'
  have hps : pitchSmooth (pitchValues (normalizeSignal y)) = [] := by
    rw [hpv]
    rfl
  have hev := energyValues_allZero h'
  have hvs : voicedSpans (normalizeSignal y) = [] := voicedSpans_allZero h'
  have hfc : fillerCountOf (normalizeSignal y) = 0 := fillerCount_allZero h'
  have hsum : analyzeSummary (normalizeSignal y) 22050 =
      (⟨0, 0, 0, 0, 0, 0, 0⟩ : FeatureSummary ℝ) := by
    unfold analyzeSummary
    rw [hps, hvs, npMeanR_allZero hev, npStdR_allZero hev, hfc]
    simp [pauseStats]
  simp only [analyzeVoice]
  rw [hsum]
  have hscore : confidenceScore (⟨0, 0, 0, 0, 0, 0, 0⟩ : FeatureSummary ℝ) = 75 := by
    unfold confidenceScore clip01
    norm_num
  have hsugg : suggestions (⟨0, 0, 0, 0, 0, 0, 0⟩ : FeatureSummary ℝ) =
      ["Increase pitch variation to sound more engaging.",
       "Speak with more volume and energy."] := by
    unfold suggestions
    norm_num
  rw [hscore, hsugg, confidenceLevel, if_pos (le_refl (75 : ℝ))]

/-- C6 witness: the silent-buffer theorem applied to the concrete
three-sample all-zero buffer. -/
theorem C6_silent_buffer_witness :
    analyzeVoice [0, 0, 0] 22050 =
      ("Confident", (75 : ℝ),
        ["Increase pitch variation to sound more engaging.",
         "Speak with more volume and energy."],
        ⟨0, 0, 0, 0, 0, 0, 0⟩) :=
  C6_silent_buffer [0, 0, 0] (by intro a ha; simpa using ha)

end VocalEdge
